import Mathlib

/-!
Verification development for the todofy repository (Go), focused on the two
subsystems the specification covers: the LLM summary orchestration
(`Summarize` / `summaryInternal` / `summaryByGemini` together with the
sliding-window `TokenTracker`), and the service readiness gate
(`GRPCClients.WaitForHealthy`).

Shallow-embedding conventions:
* Go strings are modelled as `List Char` (Go indexes bytes; for the logic of
  these claims only lengths and prefixes matter, and the byte/char distinction
  is immaterial to every statement below).
* Go `int32` values (token counts, limits) are modelled as `Int`; no claim in
  scope depends on 32-bit wrap-around.
* `time.Time` is modelled as `Int` (an abstract instant); the injectable
  `timeFunc` of the source becomes an explicit `now : Int` argument.
* Mutating methods become state-passing functions returning the new state.
* The external Gemini client (`geminiClient` interface of the source) becomes
  a structure of two deterministic response functions keyed by the model name
  and the single text the source always wraps in `contents`.
* External calls are additionally logged as events so that call-count and
  call-argument properties of the specification can be stated.
-/

namespace Todofy

/-- Abstract model identifiers, from the `pb.Model` protobuf enum values used
by `llm/consts.go`. -/
inductive Model
  | MODEL_UNSPECIFIED
  | MODEL_GEMINI_2_0_FLASH
  | MODEL_GEMINI_2_5_PRO
  | MODEL_GEMINI_2_5_FLASH
  | MODEL_GEMINI_2_5_FLASH_LITE
  | MODEL_GEMINI_2_0_FLASH_LITE
  deriving DecidableEq, Repr

/-- Model families, from the `pb.ModelFamily` protobuf enum. -/
inductive ModelFamily
  | MODEL_FAMILY_UNSPECIFIED
  | MODEL_FAMILY_GEMINI
  deriving DecidableEq, Repr

/-- `llmModelNames` of `llm/consts.go`: the map from abstract model ids to
provider-specific model names; absence models a key missing from the Go map. -/
def llmModelNames : Model → Option String
  | .MODEL_GEMINI_2_0_FLASH => some "gemini-2.0-flash"
  | .MODEL_GEMINI_2_5_PRO => some "gemini-2.5-pro"
  | .MODEL_GEMINI_2_5_FLASH => some "gemini-2.5-flash"
  | .MODEL_GEMINI_2_5_FLASH_LITE => some "gemini-2.5-flash-lite"
  | .MODEL_GEMINI_2_0_FLASH_LITE => some "gemini-2.0-flash-lite"
  | .MODEL_UNSPECIFIED => none

/-- `llmModelPriority` of `llm/consts.go`: the ordered fallback list. -/
def llmModelPriority : List Model :=
  [ .MODEL_GEMINI_2_5_PRO,
    .MODEL_GEMINI_2_5_FLASH,
    .MODEL_GEMINI_2_5_FLASH_LITE,
    .MODEL_GEMINI_2_0_FLASH,
    .MODEL_GEMINI_2_0_FLASH_LITE ]

/-- `supportedModelFamily` of `llm/consts.go`. -/
def supportedModelFamily : List ModelFamily := [.MODEL_FAMILY_GEMINI]

/-- `tokenLimit` of `llm/consts.go` (`int32 = 1048576`). -/
def tokenLimit : Int := 1048576

/-- `tokenRecord` of the token tracker source: one usage entry. -/
structure TokenRecord where
  timestamp : Int
  tokens : Int
  deriving DecidableEq, Repr

/-- `TokenTracker` of the token tracker source; the mutex only serialises the
methods and the `timeFunc` becomes the explicit `now` argument of each
operation, so the state is the record list, the window and the limit. -/
structure TokenTracker where
  records : List TokenRecord
  window : Int
  limit : Int
  deriving DecidableEq, Repr

/-- `NewTokenTracker`: empty record list with the given window and limit. -/
def NewTokenTracker (window limit : Int) : TokenTracker :=
  { records := [], window := window, limit := limit }

/-- `TokenTracker.prune`: drop the longest leading run of records strictly
older than `now - window` (the Go loop advances `i` while
`records[i].timestamp.Before(cutoff)` and keeps `records[i:]`). -/
def TokenTracker.prune (t : TokenTracker) (now : Int) : TokenTracker :=
  { t with records := t.records.dropWhile (fun r => decide (r.timestamp < now - t.window)) }

/-- `TokenTracker.CurrentUsage`: prune, then sum the remaining costs.
Returns the sum together with the post-prune state. -/
def TokenTracker.CurrentUsage (t : TokenTracker) (now : Int) : Int × TokenTracker :=
  let t1 := t.prune now
  (((t1.records.map TokenRecord.tokens).sum : Int), t1)

/-- `TokenTracker.CheckLimit`: with a non-positive limit the check passes
without touching the state; otherwise prune, sum, and report a violation
message exactly when `total + tokens > limit`. Returns the message (empty
string = pass, as in the source) with the new state. -/
def TokenTracker.CheckLimit (t : TokenTracker) (tokens now : Int) : String × TokenTracker :=
  if t.limit ≤ 0 then ("", t)
  else
    let t1 := t.prune now
    let total : Int := (t1.records.map TokenRecord.tokens).sum
    if total + tokens > t.limit then ("daily token limit exceeded", t1)
    else ("", t1)

/-- `TokenTracker.Record`: append a usage entry stamped `now`. -/
def TokenTracker.Record (t : TokenTracker) (tokens now : Int) : TokenTracker :=
  { t with records := t.records ++ [{ timestamp := now, tokens := tokens }] }

/-- `genai.CountTokensResponse`, reduced to the `TotalTokens` field that the
source reads. -/
structure CountTokensResponse where
  totalTokens : Int
  deriving DecidableEq, Repr

/-- `genai.Part`, reduced to the `Text` field the source reads. -/
structure GPart where
  text : List Char
  deriving DecidableEq, Repr

/-- `genai.Content`: a list of parts. -/
structure GContent where
  parts : List GPart
  deriving DecidableEq, Repr

/-- `genai.Candidate`: its `Content` pointer may be nil. -/
structure GCandidate where
  content : Option GContent
  deriving DecidableEq, Repr

/-- `genai.GenerateContentResponse`: candidates plus the optional
`UsageMetadata.TotalTokenCount` (the only metadata field the source reads;
`none` models a nil `UsageMetadata` pointer). -/
structure GenerateContentResponse where
  candidates : List GCandidate
  usageMetadata : Option Int
  deriving DecidableEq, Repr

/-- The `geminiClient` interface of the source, as two deterministic response
functions. The source always passes `contents = [{Parts: [{Text: s}]}]`, so a
call is determined by the model name and that text, which are the arguments
here. -/
structure GeminiClient where
  CountTokens : String → List Char → Except String CountTokensResponse
  GenerateContent : String → List Char → Except String GenerateContentResponse

/-- Environment of a `summaryByGemini` call: the process-wide `geminiAPIKey`
and `dailyTokenLimit` flags, and the injected client factory (`s.clientFactory`
with `newRealGeminiClient` as just one possible value). -/
structure LLMEnv where
  geminiAPIKey : List Char
  dailyTokenLimit : Int
  clientFactory : List Char → Except String GeminiClient

/-- Observable external interactions of one summarization run: a per-candidate
attempt entry (one per `tryGenerateSummary` invocation) and the two backend
calls with the exact arguments handed over. -/
inductive Ev
  | attempt (m : Model)
  | countCall (model : String) (input : List Char)
  | generateCall (model : String) (input : List Char)
  deriving DecidableEq, Repr

/-- Does the event record a `GenerateContent` backend call? -/
def Ev.isGenerate : Ev → Bool
  | .generateCall _ _ => true
  | _ => false

/-- Does the event record a `CountTokens` backend call? -/
def Ev.isCount : Ev → Bool
  | .countCall _ _ => true
  | _ => false

/-- Does the event record the start of a per-model attempt? -/
def Ev.isAttempt : Ev → Bool
  | .attempt _ => true
  | _ => false

/-- The errors produced by the summarization path, each constructor carrying
exactly the data the corresponding Go error carries in its format string. -/
inductive SummaryError
  | unsupportedFamily (family : ModelFamily)
  | unsupportedModel (m : Model)
  | emptyAPIKey
  | clientCreateFailed (e : String)
  | countTokensFailed (e : String)
  | resourceExhausted (msg : String) (currentUsage request limit : Int)
  | generateFailed (e : String)
  | noContent
  | noContentParts
  | allModelsFailed (models : List Model)
  deriving DecidableEq, Repr

/-- One iteration of the Go truncation: `contentWithPrompt[:len/10*9]`, i.e.
keep the first `length / 10 * 9` characters (Nat division, division first,
exactly as the Go expression associates). -/
def truncateStep (s : List Char) : List Char :=
  s.take (s.length / 10 * 9)

/-- The `CountTokens`-and-truncate loop of `summaryByGemini`, structurally
recursive on an explicit iteration bound so that it evaluates by `rfl`:
measure the current text; on a count error fail; if the measure is within
`maxTokens` stop with the (possibly truncated) text and its measure; otherwise
shrink by `truncateStep` and re-measure. `none` models divergence of the Go
`for` loop: once the text is empty the Go code re-slices the empty string and
re-measures it forever. `countLoop` below supplies `fuel = s.length`, which
`countLoopFuel_stable` proves is always enough, because the length strictly
decreases on every shrink of a non-empty text; so `none` arises exactly in the
genuinely divergent empty-text case. The returned event list records each
`CountTokens` call with its exact input. -/
def countLoopFuel (client : GeminiClient) (name : String) (maxTokens : Int) :
    Nat → List Char → Option (Except String (List Char × Int) × List Ev)
  | 0, s =>
    match client.CountTokens name s with
    | .error e => some (.error e, [.countCall name s])
    | .ok r =>
      if r.totalTokens ≤ maxTokens then some (.ok (s, r.totalTokens), [.countCall name s])
      else none
  | fuel' + 1, s =>
    match client.CountTokens name s with
    | .error e => some (.error e, [.countCall name s])
    | .ok r =>
      if r.totalTokens ≤ maxTokens then some (.ok (s, r.totalTokens), [.countCall name s])
      else
        if s.length = 0 then none
        else
          match countLoopFuel client name maxTokens fuel' (truncateStep s) with
          | none => none
          | some (res, ev) => some (res, .countCall name s :: ev)

/-- The truncation loop of `summaryByGemini`, at its adequate bound. -/
def countLoop (client : GeminiClient) (name : String) (maxTokens : Int)
    (s : List Char) : Option (Except String (List Char × Int) × List Ev) :=
  countLoopFuel client name maxTokens s.length s

/-- Result of one stateful run: outcome, tracker state after the run, and the
logged external interactions. `none` models divergence (see `countLoopFuel`). -/
abbrev RunResult (α : Type) : Type :=
  Option (Except SummaryError α × Option TokenTracker × List Ev)

/-- The daily-limit gate of `summaryByGemini` (`if s.tracker != nil { if msg
:= s.tracker.CheckLimit(...); msg != "" {...} }`): with no tracker it passes;
with a tracker it passes iff `CheckLimit` returned the empty message, and on a
violation the error carries the message, `CurrentUsage`, the measured size and
the `dailyTokenLimit` flag, the tracker being left in the state those two
calls produced. -/
def geminiGate (env : LLMEnv) (tracker : Option TokenTracker) (now total : Int) :
    Except SummaryError Unit × Option TokenTracker :=
  match tracker with
  | none => (.ok (), none)
  | some t =>
    match t.CheckLimit total now with
    | (msg, t1) =>
      if msg = "" then (.ok (), some t1)
      else
        match t1.CurrentUsage now with
        | (usage, t2) =>
          (.error (.resourceExhausted msg usage total env.dailyTokenLimit), some t2)

/-- The generation tail of `summaryByGemini`: call `GenerateContent` on the
(possibly truncated) `text`, validate candidates/content/parts, and on success
record the `UsageMetadata` total when present, else the measured size `total`,
returning the first part's text. `ev` is the event log accumulated so far. -/
def geminiCall (client : GeminiClient) (name : String) (tr1 : Option TokenTracker)
    (now total : Int) (text : List Char) (ev : List Ev) : RunResult (List Char) :=
  match client.GenerateContent name text with
  | .error e =>
    some (.error (.generateFailed e), tr1, ev ++ [.generateCall name text])
  | .ok resp =>
    let ev1 := ev ++ [.generateCall name text]
    match resp.candidates with
    | [] => some (.error .noContent, tr1, ev1)
    | cand :: _ =>
      match cand.content with
      | none => some (.error .noContent, tr1, ev1)
      | some c0 =>
        match c0.parts with
        | [] => some (.error .noContentParts, tr1, ev1)
        | p :: _ =>
          let totalTokens :=
            match resp.usageMetadata with
            | some u => u
            | none => total
          let trF :=
            match tr1 with
            | none => none
            | some t => some (t.Record totalTokens now)
          some (.ok p.text, trF, ev1)

/-- `llmServer.summaryByGemini`, step by step as in the source: reject an
empty `geminiAPIKey`; obtain a client from the factory; look the model up in
`llmModelNames`; build `contentWithPrompt = prompt + "\n" + content`; run the
count/truncate loop; gate on the daily limit (`geminiGate`); then generate,
validate and record (`geminiCall`). -/
def summaryByGemini (env : LLMEnv) (tracker : Option TokenTracker) (now : Int)
    (prompt content : List Char) (llmModel : Model) (maxTokens : Int) :
    RunResult (List Char) :=
  if env.geminiAPIKey = [] then some (.error .emptyAPIKey, tracker, [])
  else
    match env.clientFactory env.geminiAPIKey with
    | .error e => some (.error (.clientCreateFailed e), tracker, [])
    | .ok client =>
      match llmModelNames llmModel with
      | none => some (.error (.unsupportedModel llmModel), tracker, [])
      | some llmModelName =>
        let contentWithPrompt := prompt ++ '\n' :: content
        match countLoop client llmModelName maxTokens contentWithPrompt with
        | none => none
        | some (.error e, ev) => some (.error (.countTokensFailed e), tracker, ev)
        | some (.ok (text, total), ev) =>
          match geminiGate env tracker now total with
          | (.error e, tr1) => some (.error e, tr1, ev)
          | (.ok _, tr1) => geminiCall client llmModelName tr1 now total text ev

/-- `llmServer.tryGenerateSummary`: dispatch on the model family. -/
def tryGenerateSummary (env : LLMEnv) (tracker : Option TokenTracker) (now : Int)
    (modelFamily : ModelFamily) (prompt text : List Char) (model : Model)
    (maxTokens : Int) : RunResult (List Char) :=
  match modelFamily with
  | .MODEL_FAMILY_GEMINI => summaryByGemini env tracker now prompt text model maxTokens
  | f => some (.error (.unsupportedFamily f), tracker, [])

/-- The candidate loop of `llmServer.summaryInternal`. `orig` is the full
candidate list (the Go `models` parameter, which the exhaustion error names).
For each candidate in order: a model id missing from `llmModelNames` aborts
the whole operation with an unsupported-model error; otherwise the per-model
attempt runs (logged as `Ev.attempt`); a non-empty success returns at once
with that candidate's id; a failure or empty summary falls through to the next
candidate (the Go warning log and one-second backoff have no further effect on
the result); an exhausted list yields the aggregate error naming `orig`. -/
def summaryLoop (env : LLMEnv) (now : Int) (modelFamily : ModelFamily)
    (prompt text : List Char) (orig : List Model) (maxTokens : Int) :
    List Model → Option TokenTracker → RunResult (List Char × Model)
  | [], tracker => some (.error (.allModelsFailed orig), tracker, [])
  | m :: ms, tracker =>
    match llmModelNames m with
    | none => some (.error (.unsupportedModel m), tracker, [])
    | some _ =>
      match tryGenerateSummary env tracker now modelFamily prompt text m maxTokens with
      | none => none
      | some (.error _, tr1, ev) =>
        match summaryLoop env now modelFamily prompt text orig maxTokens ms tr1 with
        | none => none
        | some (res, trF, evF) => some (res, trF, (Ev.attempt m :: ev) ++ evF)
      | some (.ok summary, tr1, ev) =>
        if summary = [] then
          match summaryLoop env now modelFamily prompt text orig maxTokens ms tr1 with
          | none => none
          | some (res, trF, evF) => some (res, trF, (Ev.attempt m :: ev) ++ evF)
        else some (.ok (summary, m), tr1, Ev.attempt m :: ev)

/-- `llmServer.summaryInternal`: run the candidate loop over `models`, which
is also the set the exhaustion error names. -/
def summaryInternal (env : LLMEnv) (tracker : Option TokenTracker) (now : Int)
    (modelFamily : ModelFamily) (prompt text : List Char) (models : List Model)
    (maxTokens : Int) : RunResult (List Char × Model) :=
  summaryLoop env now modelFamily prompt text models maxTokens models tracker

/-- `pb.LLMSummaryRequest`, reduced to the fields `Summarize` reads. -/
structure LLMSummaryRequest where
  modelFamily : ModelFamily
  model : Model
  prompt : List Char
  text : List Char
  maxTokens : Int
  deriving Repr

/-- `llmServer.Summarize`: reject an unsupported family; default `MaxTokens`
to `tokenLimit` when zero; select `[req.Model]` when a model is explicitly
requested, else the full priority list; delegate to `summaryInternal` (whose
error Go wraps in a "failed to generate summary" message, preserved here as
the inner error value). -/
def Summarize (env : LLMEnv) (tracker : Option TokenTracker) (now : Int)
    (req : LLMSummaryRequest) : RunResult (List Char × Model) :=
  if ¬ supportedModelFamily.contains req.modelFamily then
    some (.error (.unsupportedFamily req.modelFamily), tracker, [])
  else
    let maxTokens := if req.maxTokens ≠ 0 then req.maxTokens else tokenLimit
    let selected := if req.model ≠ .MODEL_UNSPECIFIED then [req.model] else llmModelPriority
    summaryInternal env tracker now req.modelFamily req.prompt req.text selected maxTokens

/-- Outcome of one health probe of a service, from the poller's view in
`GRPCClients.WaitForHealthy`: the `healthClient.Check` call errored (handled
as "not yet serving": logged and the loop continues), returned a non-`SERVING`
status (loop continues), or reported `SERVING` (poller succeeds). -/
inductive ProbeResult
  | err
  | notServing
  | serving
  deriving DecidableEq, Repr

/-- One service's polling loop in `WaitForHealthy`. `remaining` is how many
ticker firings the context allows before `ctx.Done()` wins the `select` (the
500ms ticker and the context deadline discretised to tick units); `k` is the
index of the next tick. Exhausting `remaining` is the `ctx.Done()` branch:
the poller fails (its "health check timeout" error). A `SERVING` probe ends
the poller successfully; an error or non-`SERVING` probe lets the loop
continue with the next tick. -/
def pollAux (probe : Nat → ProbeResult) : Nat → Nat → Bool
  | 0, _ => false
  | remaining + 1, k =>
    match probe k with
    | .serving => true
    | _ => pollAux probe remaining (k + 1)

/-- Whether a service's poller reaches `SERVING` within `deadline` ticks,
starting from the first tick. -/
def pollServing (probe : Nat → ProbeResult) (deadline : Nat) : Bool :=
  pollAux probe deadline 1

/-- A service of the pool, as `WaitForHealthy` sees it: its registered name
and the schedule of probe outcomes its health endpoint would return at each
tick. -/
structure ServiceSpec where
  name : String
  probe : Nat → ProbeResult

/-- `GRPCClients.WaitForHealthy`: spawn one poller per service, wait for all
of them, collect every failure from the error channel, and return the
aggregate error listing the failed services' timeout errors if any failure
occurred, success otherwise. The `timeout` parameter is accepted exactly as in
the source, whose body never reads it: polling is bounded only by the
context's deadline. -/
def WaitForHealthy (services : List ServiceSpec) (ctxDeadline : Nat)
    (timeout : Nat) : Except (List String) Unit :=
  let failures :=
    (services.filter (fun sv => ! pollServing sv.probe ctxDeadline)).map ServiceSpec.name
  if failures.isEmpty then .ok () else .error failures

/-- Tracker state after a sequence of `Record(cost)` calls, each stamped with
its own timestamp, starting from `NewTokenTracker window limit`; a call is the
pair (timestamp, cost). -/
def trackerAfter (window limit : Int) (calls : List (Int × Int)) : TokenTracker :=
  calls.foldl (fun t c => t.Record c.2 c.1) (NewTokenTracker window limit)

/-- Fixture: a successful generation response with text "ok" and a
backend-reported total of 150 tokens. -/
def respOK : GenerateContentResponse :=
  { candidates := [{ content := some { parts := [{ text := "ok".toList }] } }],
    usageMetadata := some 150 }

/-- Fixture: a successful generation response with text "fallback summary"
and no usage metadata. -/
def respFB : GenerateContentResponse :=
  { candidates := [{ content := some { parts := [{ text := "fallback summary".toList }] } }],
    usageMetadata := none }

/-- Fixture: a backend whose count is always 5 and whose generation always
succeeds with `respOK`. -/
def clientHappy : GeminiClient :=
  { CountTokens := fun _ _ => .ok { totalTokens := 5 },
    GenerateContent := fun _ _ => .ok respOK }

/-- Fixture: a backend whose count is always 5 and whose generation always
fails. -/
def clientGenFail : GeminiClient :=
  { CountTokens := fun _ _ => .ok { totalTokens := 5 },
    GenerateContent := fun _ _ => .error "model overloaded" }

/-- Fixture: a backend for the fallback scenario: generation fails for the
first priority model `gemini-2.5-pro` and succeeds for every other model. -/
def clientFallback : GeminiClient :=
  { CountTokens := fun _ _ => .ok { totalTokens := 5 },
    GenerateContent := fun name _ =>
      if name = "gemini-2.5-pro" then .error "model overloaded" else .ok respFB }

/-- Fixture: a backend whose measured cost is the character length of the
input, to exercise the truncation loop. -/
def clientLenCost : GeminiClient :=
  { CountTokens := fun _ s => .ok { totalTokens := (s.length : Int) },
    GenerateContent := fun _ _ => .ok respFB }

/-- Fixture: a backend whose count is the constant 0 (as for an empty input),
used to exhibit divergence of the truncation loop at a negative token
ceiling. -/
def clientZeroCost : GeminiClient :=
  { CountTokens := fun _ _ => .ok { totalTokens := 0 },
    GenerateContent := fun _ _ => .ok respOK }

/-- Fixture: an environment with a non-empty key, the default daily token
limit flag value, and a factory returning the given client. -/
def envWith (client : GeminiClient) : LLMEnv :=
  { geminiAPIKey := "test-api-key".toList,
    dailyTokenLimit := 3000000,
    clientFactory := fun _ => .ok client }

/-- Fixture: an environment whose `geminiAPIKey` flag is empty. -/
def envNoKey : LLMEnv :=
  { geminiAPIKey := [],
    dailyTokenLimit := 3000000,
    clientFactory := fun _ => .ok clientHappy }

theorem dropWhile_idem (p : α → Bool) (l : List α) :
    (l.dropWhile p).dropWhile p = l.dropWhile p := by
  induction l with
  | nil => rfl
  | cons h t ih =>
    by_cases hp : p h
    · simpa [List.dropWhile_cons, hp] using ih
    · simp [List.dropWhile_cons, hp]

theorem dropWhile_eq_filter_of_sorted (cutoff : Int) :
    ∀ l : List TokenRecord, l.Pairwise (fun a b => a.timestamp ≤ b.timestamp) →
      l.dropWhile (fun r => decide (r.timestamp < cutoff))
        = l.filter (fun r => ! decide (r.timestamp < cutoff)) := by
  intro l
  induction l with
  | nil => intro _; rfl
  | cons h t ih =>
    intro hl
    rcases List.pairwise_cons.mp hl with ⟨hrel, ht⟩
    by_cases hp : h.timestamp < cutoff
    · simpa [List.dropWhile_cons, List.filter_cons, hp] using ih ht
    · have hall : ∀ r ∈ t, (! decide (r.timestamp < cutoff)) = true := by
        intro r hr
        have := hrel r hr
        simp only [Bool.not_eq_true', decide_eq_false_iff_not]
        omega
      simp [List.dropWhile_cons, List.filter_cons, hp, List.filter_eq_self.mpr hall]

theorem prune_idem (t : TokenTracker) (now : Int) :
    (t.prune now).prune now = t.prune now := by
  simp [TokenTracker.prune, dropWhile_idem]

theorem CurrentUsage_prune_fst (t : TokenTracker) (now : Int) :
    ((t.prune now).CurrentUsage now).1 = (t.CurrentUsage now).1 := by
  simp [TokenTracker.CurrentUsage, prune_idem]

/-- Characterisation of `CurrentUsage` on a tracker whose record list is
sorted by timestamp with no future records: the usage is the sum of the
in-window costs, and the pruned state keeps exactly the records not strictly
older than `now - window`. -/
theorem CurrentUsage_char (t : TokenTracker) (now : Int)
    (hsort : t.records.Pairwise (fun a b => a.timestamp ≤ b.timestamp))
    (hle : ∀ r ∈ t.records, r.timestamp ≤ now) :
    (t.CurrentUsage now).1
      = ((t.records.filter
          (fun r => decide (now - t.window ≤ r.timestamp ∧ r.timestamp ≤ now))).map
            TokenRecord.tokens).sum
    ∧ (t.CurrentUsage now).2.records
      = t.records.filter (fun r => ! decide (r.timestamp < now - t.window)) := by
  have hdw := dropWhile_eq_filter_of_sorted (now - t.window) t.records hsort
  have hcongr : t.records.filter (fun r => ! decide (r.timestamp < now - t.window))
      = t.records.filter
          (fun r => decide (now - t.window ≤ r.timestamp ∧ r.timestamp ≤ now)) := by
    refine List.filter_congr ?_
    intro r hr
    have := hle r hr
    rw [Bool.eq_iff_iff]
    simp only [Bool.not_eq_true', decide_eq_false_iff_not, decide_eq_true_eq]
    omega
  constructor
  · simp only [TokenTracker.CurrentUsage, TokenTracker.prune]
    rw [hdw, hcongr]
  · simp only [TokenTracker.CurrentUsage, TokenTracker.prune]
    rw [hdw]

theorem foldl_Record_eq (calls : List (Int × Int)) :
    ∀ t : TokenTracker, calls.foldl (fun t c => t.Record c.2 c.1) t
      = { t with records := t.records ++ calls.map (fun c => ⟨c.1, c.2⟩) } := by
  induction calls with
  | nil => intro t; simp
  | cons c cs ih =>
    intro t
    rw [List.foldl_cons, ih]
    simp [TokenTracker.Record]

theorem trackerAfter_eq (window limit : Int) (calls : List (Int × Int)) :
    trackerAfter window limit calls
      = { records := calls.map (fun c => ⟨c.1, c.2⟩), window := window, limit := limit } := by
  rw [trackerAfter, foldl_Record_eq]
  simp [NewTokenTracker]

/-- C2: for every sequence of `record(cost)` calls (with nondecreasing
timestamps, none in the future of the query), `currentUsage()` at `now` is
the sum of the costs of exactly the records whose timestamp lies in
`[now - window, now]`, and the records strictly older than `now - window` are
the ones pruned; in particular the 24h/ceiling-1000 scenario: one record of
800 at 25 hours before the query yields usage 0 and `checkLimit(900)`
passes. -/
theorem C2_sliding_window_usage :
    (∀ (window limit now : Int) (calls : List (Int × Int)),
      calls.Pairwise (fun a b => a.1 ≤ b.1) →
      (∀ c ∈ calls, c.1 ≤ now) →
      ((trackerAfter window limit calls).CurrentUsage now).1
        = ((calls.filter (fun c => decide (now - window ≤ c.1 ∧ c.1 ≤ now))).map
            Prod.snd).sum
      ∧ ((trackerAfter window limit calls).CurrentUsage now).2.records
        = (calls.filter (fun c => ! decide (c.1 < now - window))).map
            (fun c => ⟨c.1, c.2⟩))
    ∧ ((trackerAfter 24 1000 [(0, 800)]).CurrentUsage 25).1 = 0
    ∧ ((trackerAfter 24 1000 [(0, 800)]).CheckLimit 900 25).1 = "" := by
  refine ⟨?_, by decide, by decide⟩
  intro window limit now calls hsort hle
  rw [trackerAfter_eq]
  have hsort' : (calls.map (fun c => (⟨c.1, c.2⟩ : TokenRecord))).Pairwise
      (fun a b => a.timestamp ≤ b.timestamp) := by
    rw [List.pairwise_map]
    exact hsort
  have hle' : ∀ r ∈ calls.map (fun c => (⟨c.1, c.2⟩ : TokenRecord)), r.timestamp ≤ now := by
    intro r hr
    rcases List.mem_map.mp hr with ⟨c, hc, rfl⟩
    exact hle c hc
  have h := CurrentUsage_char
    { records := calls.map (fun c => ⟨c.1, c.2⟩), window := window, limit := limit }
    now hsort' hle'
  refine ⟨?_, ?_⟩
  · rw [h.1]
    rw [List.filter_map, List.map_map]
    rfl
  · rw [h.2]
    rw [List.filter_map]
    rfl

/-- Witness for C2 at a concrete input: the record of 800 at time 0 is outside
the window at time 25 with window 24, so the usage sum is empty. -/
theorem C2_sliding_window_usage_witness :
    ((trackerAfter 24 1000 [((0 : Int), (800 : Int))]).CurrentUsage 25).1
      = (([((0 : Int), (800 : Int))].filter
          (fun c => decide (25 - 24 ≤ c.1 ∧ c.1 ≤ 25))).map Prod.snd).sum :=
  (C2_sliding_window_usage.1 24 1000 25 [(0, 800)] (by decide) (by decide)).1

/-- C3: with a strictly positive ceiling, `checkLimit` prunes and then signals
a violation exactly when the pruned sum plus the prospective cost strictly
exceeds the ceiling; the boundary is inclusive, shown at ceiling 10000 with
in-window usage 5000: cost 5000 passes, cost 5001 fails. -/
theorem C3_check_limit_boundary :
    (∀ (t : TokenTracker) (cost now : Int), 0 < t.limit →
      (((t.CheckLimit cost now).1 ≠ "")
        ↔ (((t.prune now).records.map TokenRecord.tokens).sum + cost > t.limit))
      ∧ (t.CheckLimit cost now).2 = t.prune now)
    ∧ ((⟨[⟨0, 5000⟩], 24, 10000⟩ : TokenTracker).CheckLimit 5000 0).1 = ""
    ∧ ((⟨[⟨0, 5000⟩], 24, 10000⟩ : TokenTracker).CheckLimit 5001 0).1
        = "daily token limit exceeded" := by
  refine ⟨?_, by decide, by decide⟩
  intro t cost now hpos
  have hnl : ¬ t.limit ≤ 0 := by omega
  by_cases hgt : ((t.prune now).records.map TokenRecord.tokens).sum + cost > t.limit
  · constructor
    · simp only [TokenTracker.CheckLimit, if_neg hnl, if_pos hgt]
      constructor
      · intro _; exact hgt
      · intro _; decide
    · simp only [TokenTracker.CheckLimit, if_neg hnl, if_pos hgt]
  · constructor
    · simp only [TokenTracker.CheckLimit, if_neg hnl, if_neg hgt]
      constructor
      · intro h; exact absurd rfl h
      · intro h; exact absurd h hgt
    · simp only [TokenTracker.CheckLimit, if_neg hnl, if_neg hgt]

/-- Witness for C3 at a concrete input: ceiling 10000, in-window usage 5000,
prospective cost 5001 strictly exceeds, so the check reports a violation. -/
theorem C3_check_limit_boundary_witness :
    ((⟨[⟨0, 5000⟩], 24, 10000⟩ : TokenTracker).CheckLimit 5001 0).1 ≠ "" :=
  ((C3_check_limit_boundary.1 ⟨[⟨0, 5000⟩], 24, 10000⟩ 5001 0 (by decide)).1).mpr
    (by decide)

theorem truncateStep_length_lt (s : List Char) (hs : s ≠ []) :
    (truncateStep s).length < s.length := by
  have hpos : 0 < s.length := List.length_pos.mpr hs
  simp only [truncateStep, List.length_take]
  omega

theorem truncateStep_length_le (s : List Char) :
    (truncateStep s).length ≤ s.length := by
  simp only [truncateStep, List.length_take]
  omega

theorem countLoopFuel_eq (client : GeminiClient) (name : String) (maxTokens : Int)
    (fuel : Nat) (s : List Char) :
    countLoopFuel client name maxTokens fuel s =
      match client.CountTokens name s with
      | .error e => some (.error e, [.countCall name s])
      | .ok r =>
        if r.totalTokens ≤ maxTokens then some (.ok (s, r.totalTokens), [.countCall name s])
        else
          match fuel with
          | 0 => none
          | fuel' + 1 =>
            if s.length = 0 then none
            else
              match countLoopFuel client name maxTokens fuel' (truncateStep s) with
              | none => none
              | some (res, ev) => some (res, .countCall name s :: ev) := by
  cases fuel with
  | zero => rfl
  | succ f => rfl

/-- The actual iteration count never matters once it is at least the text
length: with that much fuel, the bound is never what stops the loop (the
length strictly decreases on every shrink), so `none` is reserved for the
genuinely divergent empty-text case. -/
theorem countLoopFuel_stable (client : GeminiClient) (name : String) (maxTokens : Int) :
    ∀ (fuel fuel' : Nat) (s : List Char), s.length ≤ fuel → s.length ≤ fuel' →
      countLoopFuel client name maxTokens fuel s
        = countLoopFuel client name maxTokens fuel' s := by
  intro fuel
  induction fuel with
  | zero =>
    intro fuel' s h h'
    have hs : s = [] := List.length_eq_zero.mp (Nat.le_zero.mp h)
    subst hs
    cases fuel' with
    | zero => rfl
    | succ g =>
      rw [countLoopFuel_eq, countLoopFuel_eq]
      cases client.CountTokens name [] with
      | error e => rfl
      | ok r =>
        by_cases hle : r.totalTokens ≤ maxTokens
        · simp [hle]
        · simp [hle]
  | succ f ih =>
    intro fuel' s h h'
    cases fuel' with
    | zero =>
      have hs : s = [] := List.length_eq_zero.mp (Nat.le_zero.mp h')
      subst hs
      rw [countLoopFuel_eq, countLoopFuel_eq]
      cases client.CountTokens name [] with
      | error e => rfl
      | ok r =>
        by_cases hle : r.totalTokens ≤ maxTokens
        · simp [hle]
        · simp [hle]
    | succ g =>
      rw [countLoopFuel_eq, countLoopFuel_eq]
      cases client.CountTokens name s with
      | error e => rfl
      | ok r =>
        by_cases hle : r.totalTokens ≤ maxTokens
        · simp [hle]
        · simp only [if_neg hle]
          by_cases hz : s.length = 0
          · simp [hz]
          · simp only [if_neg hz]
            have hne : s ≠ [] := by
              intro hnil
              exact hz (by simp [hnil])
            have hlt := truncateStep_length_lt s hne
            rw [ih g (truncateStep s) (by omega) (by omega)]

/-- Inversion principle for one unfolding of the truncation loop: a
successful run either stopped at this text (count error, or measure within
the ceiling) or shrank once and continued. -/
theorem countLoopFuel_inv (client : GeminiClient) (name : String) (maxTokens : Int)
    (fuel : Nat) (s : List Char) (res : Except String (List Char × Int)) (ev : List Ev)
    (h : countLoopFuel client name maxTokens fuel s = some (res, ev)) :
    (∃ e, client.CountTokens name s = .error e ∧ res = .error e
      ∧ ev = [Ev.countCall name s])
    ∨ (∃ r, client.CountTokens name s = .ok r ∧ r.totalTokens ≤ maxTokens
      ∧ res = .ok (s, r.totalTokens) ∧ ev = [Ev.countCall name s])
    ∨ (∃ r fuel' ev', client.CountTokens name s = .ok r
      ∧ ¬ r.totalTokens ≤ maxTokens ∧ fuel = fuel' + 1 ∧ s ≠ []
      ∧ countLoopFuel client name maxTokens fuel' (truncateStep s) = some (res, ev')
      ∧ ev = Ev.countCall name s :: ev') := by
  rw [countLoopFuel_eq] at h
  split at h
  next e heq =>
    left
    simp only [Option.some.injEq, Prod.mk.injEq] at h
    exact ⟨e, heq, h.1.symm, h.2.symm⟩
  next r heq =>
    split at h
    next hle =>
      right; left
      simp only [Option.some.injEq, Prod.mk.injEq] at h
      exact ⟨r, heq, hle, h.1.symm, h.2.symm⟩
    next hle =>
      split at h
      next => exact absurd h (by simp)
      next fuel' =>
        split at h
        next => exact absurd h (by simp)
        next hz =>
          split at h
          next => exact absurd h (by simp)
          next res' ev' hsome =>
            right; right
            simp only [Option.some.injEq, Prod.mk.injEq] at h
            refine ⟨r, fuel', ev', heq, hle, rfl, ?_, ?_, h.2.symm⟩
            · intro h0
              exact hz (by simp [h0])
            · rw [hsome, h.1]

/-- Every successful run of the truncation loop logs its first `CountTokens`
call, on exactly the text it was entered with. -/
theorem countLoopFuel_head_ev (client : GeminiClient) (name : String) (maxTokens : Int)
    (fuel : Nat) (s : List Char) (res : Except String (List Char × Int)) (ev : List Ev)
    (h : countLoopFuel client name maxTokens fuel s = some (res, ev)) :
    ∃ ev', ev = Ev.countCall name s :: ev' := by
  rcases countLoopFuel_inv client name maxTokens fuel s res ev h with
    ⟨e, _, _, hev⟩ | ⟨r, _, _, _, hev⟩ | ⟨r, fuel', ev', _, _, _, _, _, hev⟩
  · exact ⟨[], hev⟩
  · exact ⟨[], hev⟩
  · exact ⟨ev', hev⟩

/-- Every event the truncation loop logs is a `CountTokens` call. -/
theorem countLoopFuel_ev_count (client : GeminiClient) (name : String) (maxTokens : Int) :
    ∀ (fuel : Nat) (s : List Char) (res : Except String (List Char × Int)) (ev : List Ev),
      countLoopFuel client name maxTokens fuel s = some (res, ev) →
      ∀ e ∈ ev, e.isCount = true := by
  intro fuel
  induction fuel with
  | zero =>
    intro s res ev h e he
    rcases countLoopFuel_inv client name maxTokens 0 s res ev h with
      ⟨er, _, _, hev⟩ | ⟨r, _, _, _, hev⟩ | ⟨r, fuel', ev', _, _, hf, _, _, _⟩
    · rw [hev] at he
      simp only [List.mem_singleton] at he
      subst he; rfl
    · rw [hev] at he
      simp only [List.mem_singleton] at he
      subst he; rfl
    · exact absurd hf (by omega)
  | succ f ih =>
    intro s res ev h e he
    rcases countLoopFuel_inv client name maxTokens (f + 1) s res ev h with
      ⟨er, _, _, hev⟩ | ⟨r, _, _, _, hev⟩ | ⟨r, fuel', ev', _, _, hf, _, hrec, hev⟩
    · rw [hev] at he
      simp only [List.mem_singleton] at he
      subst he; rfl
    · rw [hev] at he
      simp only [List.mem_singleton] at he
      subst he; rfl
    · have hf' : fuel' = f := by omega
      subst hf'
      rw [hev] at he
      rcases List.mem_cons.mp he with he1 | he2
      · subst he1; rfl
      · exact ih (truncateStep s) res ev' hrec e he2

/-- A successful truncation run returns a text never longer than the text the
loop was entered with. -/
theorem countLoopFuel_ok_length (client : GeminiClient) (name : String) (maxTokens : Int) :
    ∀ (fuel : Nat) (s text : List Char) (c : Int) (ev : List Ev),
      countLoopFuel client name maxTokens fuel s = some (.ok (text, c), ev) →
      text.length ≤ s.length := by
  intro fuel
  induction fuel with
  | zero =>
    intro s text c ev h
    rcases countLoopFuel_inv client name maxTokens 0 s (.ok (text, c)) ev h with
      ⟨er, _, hres, _⟩ | ⟨r, _, _, hres, _⟩ | ⟨r, fuel', ev', _, _, hf, _, _, _⟩
    · exact absurd hres (by simp)
    · simp only [Except.ok.injEq, Prod.mk.injEq] at hres
      rw [hres.1]
    · exact absurd hf (by omega)
  | succ f ih =>
    intro s text c ev h
    rcases countLoopFuel_inv client name maxTokens (f + 1) s (.ok (text, c)) ev h with
      ⟨er, _, hres, _⟩ | ⟨r, _, _, hres, _⟩ | ⟨r, fuel', ev', _, _, hf, _, hrec, _⟩
    · exact absurd hres (by simp)
    · simp only [Except.ok.injEq, Prod.mk.injEq] at hres
      rw [hres.1]
    · have hf' : fuel' = f := by omega
      subst hf'
      exact le_trans (ih (truncateStep s) text c ev' hrec) (truncateStep_length_le s)

/-- One unfolding of `countLoop` in the shrink case: when the measure of a
non-empty text exceeds the ceiling, the loop re-runs on the truncated text and
merely logs the extra `CountTokens` call. -/
theorem countLoop_shrink (client : GeminiClient) (name : String) (maxTokens : Int)
    (s : List Char) (r : CountTokensResponse)
    (hc : client.CountTokens name s = .ok r) (hgt : ¬ r.totalTokens ≤ maxTokens)
    (hs : s ≠ []) :
    countLoop client name maxTokens s
      = (countLoop client name maxTokens (truncateStep s)).map
          (fun x => (x.1, Ev.countCall name s :: x.2)) := by
  have hz : s.length ≠ 0 := by
    intro h0
    exact hs (List.length_eq_zero.mp h0)
  obtain ⟨n, hl⟩ : ∃ n, s.length = n + 1 := by
    cases hsl : s.length with
    | zero => exact absurd hsl hz
    | succ n => exact ⟨n, rfl⟩
  have hlt := truncateStep_length_lt s hs
  have hstab := countLoopFuel_stable client name maxTokens n
    (truncateStep s).length (truncateStep s) (by omega) (le_refl _)
  rw [countLoop, hl, countLoopFuel_eq, hc]
  simp only [if_neg hgt, if_neg hz, hstab]
  rw [countLoop]
  cases countLoopFuel client name maxTokens (truncateStep s).length (truncateStep s) with
  | none => rfl
  | some p =>
    rcases p with ⟨res, ev⟩
    rfl

/-- Termination of the truncation loop under the amended hypothesis: as long
as measuring the empty text cannot itself exceed the ceiling, the loop stops
on every input. -/
theorem countLoop_total (client : GeminiClient) (name : String) (maxTokens : Int)
    (H : ∀ r, client.CountTokens name [] = .ok r → r.totalTokens ≤ maxTokens) :
    ∀ s, countLoop client name maxTokens s ≠ none := by
  have main : ∀ (n : Nat) (s : List Char), s.length ≤ n →
      countLoop client name maxTokens s ≠ none := by
    intro n
    induction n with
    | zero =>
      intro s hlen
      have hs : s = [] := List.length_eq_zero.mp (Nat.le_zero.mp hlen)
      subst hs
      rw [countLoop, countLoopFuel_eq]
      cases hc : client.CountTokens name [] with
      | error e => simp
      | ok r =>
        have := H r hc
        simp [this]
    | succ n ih =>
      intro s hlen
      rw [countLoop, countLoopFuel_eq]
      cases hc : client.CountTokens name s with
      | error e => simp
      | ok r =>
        by_cases hle : r.totalTokens ≤ maxTokens
        · simp [hle]
        · simp only [if_neg hle]
          by_cases hnil : s = []
          · subst hnil
            exact absurd (H r hc) hle
          · have hz : s.length ≠ 0 := by
              intro h0
              exact hnil (List.length_eq_zero.mp h0)
            obtain ⟨m, hl⟩ : ∃ m, s.length = m + 1 := by
              cases hsl : s.length with
              | zero => exact absurd hsl hz
              | succ m => exact ⟨m, rfl⟩
            rw [hl]
            simp only [if_neg hz]
            have hlt := truncateStep_length_lt s hnil
            have hstab := countLoopFuel_stable client name maxTokens m
              (truncateStep s).length (truncateStep s) (by omega) (le_refl _)
            rw [hstab]
            have hrec := ih (truncateStep s) (by omega)
            rw [countLoop] at hrec
            cases hrr : countLoopFuel client name maxTokens
                (truncateStep s).length (truncateStep s) with
            | none => exact absurd hrr hrec
            | some p =>
              rcases p with ⟨res, ev⟩
              simp
  intro s
  exact main s.length s (le_refl _)

/-- If the loop is entered with a measure already over the ceiling, `countLoop`
on the empty text is divergence. -/
theorem countLoop_nil_over (client : GeminiClient) (name : String) (maxTokens : Int)
    (r : CountTokensResponse) (hc : client.CountTokens name [] = .ok r)
    (hgt : ¬ r.totalTokens ≤ maxTokens) :
    countLoop client name maxTokens [] = none := by
  rw [countLoop]
  simp only [List.length_nil]
  rw [countLoopFuel_eq, hc]
  simp [hgt]

/-- C4 counterexample: the claim asserts the truncation loop "terminates for
every input", but the Go loop does not. With a backend that measures every
input at cost 0 (as a real tokenizer does for empty text) and a request whose
`maxTokens` is -1 (any non-zero `req.MaxTokens` is accepted verbatim), the
text shrinks to empty and the loop then re-slices `""` and re-measures it
forever: `0 > -1` never becomes false. In this embedding that divergence of
`summaryByGemini` is the value `none`, exhibited here at a concrete input. -/
theorem C4_truncation_termination_cex :
    summaryByGemini (envWith clientZeroCost) none 0 "p".toList "body".toList
      .MODEL_GEMINI_2_5_PRO (-1) = none := by
  rfl

/-- C4 (amended): the truncation loop terminates for every input text
provided measuring the empty text cannot exceed `maxInputTokens` (in the
remaining case — empty text already over the ceiling — the Go loop diverges,
see the counterexample); the character length strictly decreases on each
iteration while the text is non-empty; whenever the first measure exceeds the
ceiling, a successful loop exit carries a strictly shorter text (the input of
the subsequent `generate` call) and more than one token-count call was made;
and a concrete run with one forced shrink calls `generate` on the truncated
text after exactly two `CountTokens` calls. -/
theorem C4_truncation_termination_amended :
    (∀ (client : GeminiClient) (name : String) (maxTokens : Int),
      (∀ r, client.CountTokens name [] = .ok r → r.totalTokens ≤ maxTokens) →
      ∀ s, countLoop client name maxTokens s ≠ none)
    ∧ (∀ s : List Char, s ≠ [] → (truncateStep s).length < s.length)
    ∧ (∀ (client : GeminiClient) (name : String) (maxTokens : Int)
        (s text : List Char) (r : CountTokensResponse) (c : Int) (ev : List Ev),
        client.CountTokens name s = .ok r → ¬ r.totalTokens ≤ maxTokens →
        countLoop client name maxTokens s = some (.ok (text, c), ev) →
        text.length < s.length ∧ 2 ≤ (ev.filter Ev.isCount).length)
    ∧ summaryByGemini (envWith clientLenCost) none 0 "abcd".toList "efghi".toList
        .MODEL_GEMINI_2_5_PRO 9
      = some (.ok "fallback summary".toList, none,
          [.countCall "gemini-2.5-pro" "abcd\nefghi".toList,
           .countCall "gemini-2.5-pro" "abcd\nefgh".toList,
           .generateCall "gemini-2.5-pro" "abcd\nefgh".toList]) := by
  refine ⟨countLoop_total, truncateStep_length_lt, ?_, by rfl⟩
  intro client name maxTokens s text r c ev hc hgt h
  have hs : s ≠ [] := by
    intro hnil
    subst hnil
    rw [countLoop_nil_over client name maxTokens r hc hgt] at h
    exact absurd h (by simp)
  rw [countLoop_shrink client name maxTokens s r hc hgt hs] at h
  cases hrec : countLoop client name maxTokens (truncateStep s) with
  | none =>
    rw [hrec] at h
    exact absurd h (by simp)
  | some p =>
    rw [hrec] at h
    rcases p with ⟨res1, ev1⟩
    simp only [Option.map_some', Option.some.injEq, Prod.mk.injEq] at h
    have hres1 : res1 = .ok (text, c) := h.1
    subst hres1
    rw [countLoop] at hrec
    have hlen1 : text.length ≤ (truncateStep s).length :=
      countLoopFuel_ok_length client name maxTokens (truncateStep s).length
        (truncateStep s) text c ev1 hrec
    have hlt := truncateStep_length_lt s hs
    refine ⟨by omega, ?_⟩
    rcases countLoopFuel_head_ev client name maxTokens (truncateStep s).length
      (truncateStep s) (.ok (text, c)) ev1 hrec with ⟨ev2, hev1⟩
    rw [← h.2, hev1]
    simp [Ev.isCount]

/-- Witness for C4 (amended) at a concrete input: one truncation step on a
non-empty three-character text strictly shortens it. -/
theorem C4_truncation_termination_amended_witness :
    (truncateStep "abc".toList).length < "abc".toList.length :=
  C4_truncation_termination_amended.2.1 "abc".toList (by decide)

theorem Ev_isCount_isGenerate {e : Ev} (h : e.isCount = true) : e.isGenerate = false := by
  cases e <;> simp [Ev.isCount, Ev.isGenerate] at h ⊢

/-- Unfolding of `summaryByGemini` once the key, factory and model-name checks
have passed. -/
theorem summaryByGemini_good (env : LLMEnv) (tracker : Option TokenTracker) (now : Int)
    (prompt content : List Char) (llmModel : Model) (maxTokens : Int)
    (client : GeminiClient) (name : String)
    (hkey : ¬ env.geminiAPIKey = [])
    (hfac : env.clientFactory env.geminiAPIKey = .ok client)
    (hname : llmModelNames llmModel = some name) :
    summaryByGemini env tracker now prompt content llmModel maxTokens
      = match countLoop client name maxTokens (prompt ++ '\n' :: content) with
        | none => none
        | some (.error e, ev) => some (.error (.countTokensFailed e), tracker, ev)
        | some (.ok (text, total), ev) =>
          match geminiGate env tracker now total with
          | (.error e, tr1) => some (.error e, tr1, ev)
          | (.ok _, tr1) => geminiCall client name tr1 now total text ev := by
  simp only [summaryByGemini, if_neg hkey, hfac, hname]

theorem geminiGate_pass (env : LLMEnv) (t : TokenTracker) (now total : Int)
    (h : (t.CheckLimit total now).1 = "") :
    geminiGate env (some t) now total = (.ok (), some (t.CheckLimit total now).2) := by
  rcases hcl : t.CheckLimit total now with ⟨msg, t1⟩
  rw [hcl] at h
  simp only at h
  subst h
  simp [geminiGate, hcl]

theorem geminiGate_fail (env : LLMEnv) (t : TokenTracker) (now total : Int)
    (h : (t.CheckLimit total now).1 ≠ "") :
    geminiGate env (some t) now total
      = (.error (.resourceExhausted (t.CheckLimit total now).1
            ((t.CheckLimit total now).2.CurrentUsage now).1 total env.dailyTokenLimit),
         some ((t.CheckLimit total now).2.CurrentUsage now).2) := by
  rcases hcl : t.CheckLimit total now with ⟨msg, t1⟩
  rw [hcl] at h
  simp only at h
  rcases hcu : t1.CurrentUsage now with ⟨usage, t2⟩
  simp [geminiGate, hcl, hcu, h]

theorem geminiCall_ok (client : GeminiClient) (name : String) (tr1 : Option TokenTracker)
    (now total : Int) (text : List Char) (ev : List Ev)
    (resp : GenerateContentResponse) (cand : GCandidate) (cands : List GCandidate)
    (c0 : GContent) (p : GPart) (ps : List GPart)
    (hgen : client.GenerateContent name text = .ok resp)
    (hcand : resp.candidates = cand :: cands)
    (hcont : cand.content = some c0)
    (hparts : c0.parts = p :: ps) :
    geminiCall client name tr1 now total text ev
      = some (.ok p.text,
          match tr1 with
          | none => none
          | some t => some (t.Record
              (match resp.usageMetadata with | some u => u | none => total) now),
          ev ++ [.generateCall name text]) := by
  simp only [geminiCall, hgen, hcand, hcont, hparts]

/-- Every outcome of the generation tail keeps the event log it was given
followed by exactly one logged `GenerateContent` call. -/
theorem geminiCall_ev_shape (client : GeminiClient) (name : String)
    (tr1 : Option TokenTracker) (now total : Int) (text : List Char) (ev : List Ev)
    (res : Except SummaryError (List Char)) (trF : Option TokenTracker) (ev' : List Ev)
    (h : geminiCall client name tr1 now total text ev = some (res, trF, ev')) :
    ev' = ev ++ [Ev.generateCall name text] := by
  simp only [geminiCall] at h
  split at h
  · simp only [Option.some.injEq, Prod.mk.injEq] at h
    exact h.2.2.symm
  · split at h
    · simp only [Option.some.injEq, Prod.mk.injEq] at h
      exact h.2.2.symm
    · split at h
      · simp only [Option.some.injEq, Prod.mk.injEq] at h
        exact h.2.2.symm
      · split at h
        · simp only [Option.some.injEq, Prod.mk.injEq] at h
          exact h.2.2.symm
        · simp only [Option.some.injEq, Prod.mk.injEq] at h
          exact h.2.2.symm

/-- Every failing outcome of the generation tail leaves the tracker exactly as
it received it: `Record` is reached only on the fully validated success
path. -/
theorem geminiCall_error_tracker (client : GeminiClient) (name : String)
    (tr1 : Option TokenTracker) (now total : Int) (text : List Char) (ev : List Ev)
    (e : SummaryError) (trF : Option TokenTracker) (ev' : List Ev)
    (h : geminiCall client name tr1 now total text ev = some (.error e, trF, ev')) :
    trF = tr1 := by
  simp only [geminiCall] at h
  split at h
  · simp only [Option.some.injEq, Prod.mk.injEq] at h
    exact h.2.1.symm
  · split at h
    · simp only [Option.some.injEq, Prod.mk.injEq] at h
      exact h.2.1.symm
    · split at h
      · simp only [Option.some.injEq, Prod.mk.injEq] at h
        exact h.2.1.symm
      · split at h
        · simp only [Option.some.injEq, Prod.mk.injEq] at h
          exact h.2.1.symm
        · simp only [Option.some.injEq, Prod.mk.injEq] at h
          exact absurd h.1 (by simp)

theorem CurrentUsage_CurrentUsage_fst (t : TokenTracker) (now : Int) :
    ((t.CurrentUsage now).2.CurrentUsage now).1 = (t.CurrentUsage now).1 := by
  have h2 : (t.CurrentUsage now).2 = t.prune now := rfl
  rw [h2, CurrentUsage_prune_fst]

theorem CurrentUsage_CheckLimit_fst (t : TokenTracker) (cost now : Int) :
    ((t.CheckLimit cost now).2.CurrentUsage now).1 = (t.CurrentUsage now).1 := by
  by_cases hl : t.limit ≤ 0
  · simp [TokenTracker.CheckLimit, hl]
  · by_cases hgt : ((t.prune now).records.map TokenRecord.tokens).sum + cost > t.limit
    · simp only [TokenTracker.CheckLimit, if_neg hl, if_pos hgt]
      exact CurrentUsage_prune_fst t now
    · simp only [TokenTracker.CheckLimit, if_neg hl, if_neg hgt]
      exact CurrentUsage_prune_fst t now

/-- C7: the input handed to the generation backend before any truncation is
exactly `prompt + "\n" + body`: every completed attempt that passed the
key/factory/catalog checks logs, as its first backend interaction, a
`CountTokens` call on exactly `prompt ++ '\n' :: body`; and concretely, with
prompt "Please summarize:" and body "This is the email body.", the backend
receives exactly "Please summarize:\nThis is the email body." for both the
count and the generate call. -/
theorem C7_prompt_concatenation :
    (∀ (env : LLMEnv) (tracker : Option TokenTracker) (now : Int)
      (prompt content : List Char) (llmModel : Model) (maxTokens : Int)
      (client : GeminiClient) (name : String)
      (res : Except SummaryError (List Char)) (trF : Option TokenTracker) (ev : List Ev),
      ¬ env.geminiAPIKey = [] →
      env.clientFactory env.geminiAPIKey = .ok client →
      llmModelNames llmModel = some name →
      summaryByGemini env tracker now prompt content llmModel maxTokens
        = some (res, trF, ev) →
      ∃ ev', ev = Ev.countCall name (prompt ++ '\n' :: content) :: ev')
    ∧ summaryByGemini (envWith clientHappy) none 0 "Please summarize:".toList
        "This is the email body.".toList .MODEL_GEMINI_2_5_PRO tokenLimit
      = some (.ok "ok".toList, none,
          [.countCall "gemini-2.5-pro" "Please summarize:\nThis is the email body.".toList,
           .generateCall "gemini-2.5-pro"
             "Please summarize:\nThis is the email body.".toList]) := by
  refine ⟨?_, by rfl⟩
  intro env tracker now prompt content llmModel maxTokens client name res trF ev
    hkey hfac hname h
  rw [summaryByGemini_good env tracker now prompt content llmModel maxTokens client name
    hkey hfac hname] at h
  cases hcl : countLoop client name maxTokens (prompt ++ '\n' :: content) with
  | none =>
    rw [hcl] at h
    exact absurd h (by simp)
  | some pr =>
    rcases pr with ⟨cres, ev0⟩
    have hhead : ∃ ev', ev0 = Ev.countCall name (prompt ++ '\n' :: content) :: ev' := by
      rw [countLoop] at hcl
      exact countLoopFuel_head_ev client name maxTokens _ _ cres ev0 hcl
    rcases hhead with ⟨ev1, hev0⟩
    cases cres with
    | error ce =>
      rw [hcl] at h
      simp only [Option.some.injEq, Prod.mk.injEq] at h
      exact ⟨ev1, by rw [← h.2.2, hev0]⟩
    | ok pr2 =>
      rcases pr2 with ⟨text, total⟩
      rw [hcl] at h
      simp only [] at h
      cases hgg : geminiGate env tracker now total with
      | mk g1 g2 =>
        rw [hgg] at h
        cases g1 with
        | error ge =>
          simp only [Option.some.injEq, Prod.mk.injEq] at h
          exact ⟨ev1, by rw [← h.2.2, hev0]⟩
        | ok u =>
          simp only [] at h
          have := geminiCall_ev_shape client name g2 now total text ev0 res trF ev h
          exact ⟨ev1 ++ [Ev.generateCall name text], by rw [this, hev0]; simp⟩

/-- Witness for C7 at a concrete input: the successful happy-path run logs the
concatenated prompt/body as its first backend call. -/
theorem C7_prompt_concatenation_witness :
    ∃ ev', [Ev.countCall "gemini-2.5-pro" ("hi".toList ++ '\n' :: "there".toList),
            Ev.generateCall "gemini-2.5-pro" "hi\nthere".toList]
      = Ev.countCall "gemini-2.5-pro" ("hi".toList ++ '\n' :: "there".toList) :: ev' :=
  C7_prompt_concatenation.1 (envWith clientHappy) none 0 "hi".toList "there".toList
    .MODEL_GEMINI_2_5_PRO tokenLimit clientHappy "gemini-2.5-pro" (.ok "ok".toList) none
    [Ev.countCall "gemini-2.5-pro" ("hi".toList ++ '\n' :: "there".toList),
     Ev.generateCall "gemini-2.5-pro" "hi\nthere".toList]
    (by decide) rfl rfl (by rfl)

/-- C5: if, after truncation, `CheckLimit` on the measured size signals a
breach, the attempt fails with a resource-exhaustion error carrying the
current usage, the requested size and the configured ceiling, and no
`GenerateContent` call is made in that attempt. -/
theorem C5_budget_breach_no_generate :
    ∀ (env : LLMEnv) (t : TokenTracker) (now : Int) (prompt content : List Char)
      (llmModel : Model) (maxTokens : Int) (client : GeminiClient) (name : String)
      (text : List Char) (total : Int) (ev : List Ev),
      ¬ env.geminiAPIKey = [] →
      env.clientFactory env.geminiAPIKey = .ok client →
      llmModelNames llmModel = some name →
      countLoop client name maxTokens (prompt ++ '\n' :: content)
        = some (.ok (text, total), ev) →
      (t.CheckLimit total now).1 ≠ "" →
      summaryByGemini env (some t) now prompt content llmModel maxTokens
        = some (.error (.resourceExhausted (t.CheckLimit total now).1
            ((t.CheckLimit total now).2.CurrentUsage now).1 total env.dailyTokenLimit),
            some ((t.CheckLimit total now).2.CurrentUsage now).2, ev)
      ∧ ∀ e ∈ ev, e.isGenerate = false := by
  intro env t now prompt content llmModel maxTokens client name text total ev
    hkey hfac hname hcount hmsg
  constructor
  · rw [summaryByGemini_good env (some t) now prompt content llmModel maxTokens client name
      hkey hfac hname, hcount]
    simp only []
    rw [geminiGate_fail env t now total hmsg]
  · intro e he
    rw [countLoop] at hcount
    exact Ev_isCount_isGenerate
      (countLoopFuel_ev_count client name maxTokens _ _ _ _ hcount e he)

/-- Witness for C5 at a concrete input: in-window usage 998 with ceiling 1000
and a measured size of 5 breaches the budget, so the attempt errors out with
the usage context and the event log holds the single count call only. -/
theorem C5_budget_breach_no_generate_witness :
    summaryByGemini (envWith clientHappy) (some ⟨[⟨0, 998⟩], 24, 1000⟩) 0
      "hi".toList "there".toList .MODEL_GEMINI_2_5_PRO tokenLimit
      = some (.error (.resourceExhausted
          ((⟨[⟨0, 998⟩], 24, 1000⟩ : TokenTracker).CheckLimit 5 0).1
          (((⟨[⟨0, 998⟩], 24, 1000⟩ : TokenTracker).CheckLimit 5 0).2.CurrentUsage 0).1
          5 (envWith clientHappy).dailyTokenLimit),
          some (((⟨[⟨0, 998⟩], 24, 1000⟩ : TokenTracker).CheckLimit 5 0).2.CurrentUsage 0).2,
          [Ev.countCall "gemini-2.5-pro" "hi\nthere".toList]) :=
  (C5_budget_breach_no_generate (envWith clientHappy) ⟨[⟨0, 998⟩], 24, 1000⟩ 0
    "hi".toList "there".toList .MODEL_GEMINI_2_5_PRO tokenLimit clientHappy
    "gemini-2.5-pro" "hi\nthere".toList 5
    [Ev.countCall "gemini-2.5-pro" "hi\nthere".toList]
    (by decide) rfl rfl (by rfl) (by decide)).1

/-- C6: usage is recorded exactly on a successful attempt: a fully validated
success appends one record whose value is the backend-reported total when
present, else the measured input size; and every failing attempt (generate
error included) leaves `currentUsage()` unchanged. -/
theorem C6_usage_recording :
    (∀ (env : LLMEnv) (t : TokenTracker) (now : Int) (prompt content : List Char)
      (llmModel : Model) (maxTokens : Int) (client : GeminiClient) (name : String)
      (text : List Char) (total : Int) (ev : List Ev)
      (resp : GenerateContentResponse) (cand : GCandidate) (cands : List GCandidate)
      (c0 : GContent) (p : GPart) (ps : List GPart),
      ¬ env.geminiAPIKey = [] →
      env.clientFactory env.geminiAPIKey = .ok client →
      llmModelNames llmModel = some name →
      countLoop client name maxTokens (prompt ++ '\n' :: content)
        = some (.ok (text, total), ev) →
      (t.CheckLimit total now).1 = "" →
      client.GenerateContent name text = .ok resp →
      resp.candidates = cand :: cands →
      cand.content = some c0 →
      c0.parts = p :: ps →
      summaryByGemini env (some t) now prompt content llmModel maxTokens
        = some (.ok p.text,
            some ((t.CheckLimit total now).2.Record
              (match resp.usageMetadata with | some u => u | none => total) now),
            ev ++ [.generateCall name text]))
    ∧ (∀ (env : LLMEnv) (t : TokenTracker) (now : Int) (prompt content : List Char)
      (llmModel : Model) (maxTokens : Int) (e : SummaryError)
      (trF : Option TokenTracker) (ev : List Ev),
      summaryByGemini env (some t) now prompt content llmModel maxTokens
        = some (.error e, trF, ev) →
      ∃ t', trF = some t' ∧ (t'.CurrentUsage now).1 = (t.CurrentUsage now).1) := by
  constructor
  · intro env t now prompt content llmModel maxTokens client name text total ev
      resp cand cands c0 p ps hkey hfac hname hcount hgate hgen hcand hcont hparts
    rw [summaryByGemini_good env (some t) now prompt content llmModel maxTokens client name
      hkey hfac hname, hcount]
    simp only []
    rw [geminiGate_pass env t now total hgate]
    simp only []
    rw [geminiCall_ok client name (some (t.CheckLimit total now).2) now total text ev
      resp cand cands c0 p ps hgen hcand hcont hparts]
  · intro env t now prompt content llmModel maxTokens e trF ev h
    by_cases hkey : env.geminiAPIKey = []
    · simp only [summaryByGemini, if_pos hkey, Option.some.injEq, Prod.mk.injEq] at h
      exact ⟨t, h.2.1.symm, rfl⟩
    · cases hfac : env.clientFactory env.geminiAPIKey with
      | error fe =>
        simp only [summaryByGemini, if_neg hkey, hfac, Option.some.injEq,
          Prod.mk.injEq] at h
        exact ⟨t, h.2.1.symm, rfl⟩
      | ok client =>
        cases hname : llmModelNames llmModel with
        | none =>
          simp only [summaryByGemini, if_neg hkey, hfac, hname, Option.some.injEq,
            Prod.mk.injEq] at h
          exact ⟨t, h.2.1.symm, rfl⟩
        | some name =>
          rw [summaryByGemini_good env (some t) now prompt content llmModel maxTokens
            client name hkey hfac hname] at h
          cases hcl : countLoop client name maxTokens (prompt ++ '\n' :: content) with
          | none =>
            rw [hcl] at h
            exact absurd h (by simp)
          | some pr =>
            rcases pr with ⟨cres, ev0⟩
            cases cres with
            | error ce =>
              rw [hcl] at h
              simp only [Option.some.injEq, Prod.mk.injEq] at h
              exact ⟨t, h.2.1.symm, rfl⟩
            | ok pr2 =>
              rcases pr2 with ⟨text, total⟩
              rw [hcl] at h
              simp only [] at h
              by_cases hmsg : (t.CheckLimit total now).1 = ""
              · rw [geminiGate_pass env t now total hmsg] at h
                simp only [] at h
                have := geminiCall_error_tracker client name
                  (some (t.CheckLimit total now).2) now total text ev0 e trF ev h
                exact ⟨(t.CheckLimit total now).2, this,
                  CurrentUsage_CheckLimit_fst t total now⟩
              · rw [geminiGate_fail env t now total hmsg] at h
                simp only [Option.some.injEq, Prod.mk.injEq] at h
                refine ⟨((t.CheckLimit total now).2.CurrentUsage now).2,
                  h.2.1.symm, ?_⟩
                rw [CurrentUsage_CurrentUsage_fst, CurrentUsage_CheckLimit_fst]

/-- Witness for C6 at a concrete input: the happy-path attempt appends one
record of the backend-reported 150 tokens to the (pruned) tracker state. -/
theorem C6_usage_recording_witness :
    summaryByGemini (envWith clientHappy) (some (NewTokenTracker 24 3000000)) 0
      "hi".toList "there".toList .MODEL_GEMINI_2_5_PRO tokenLimit
      = some (.ok "ok".toList,
          some (((NewTokenTracker 24 3000000).CheckLimit 5 0).2.Record 150 0),
          [Ev.countCall "gemini-2.5-pro" "hi\nthere".toList,
           Ev.generateCall "gemini-2.5-pro" "hi\nthere".toList]) :=
  C6_usage_recording.1 (envWith clientHappy) (NewTokenTracker 24 3000000) 0
    "hi".toList "there".toList .MODEL_GEMINI_2_5_PRO tokenLimit clientHappy
    "gemini-2.5-pro" "hi\nthere".toList 5
    [Ev.countCall "gemini-2.5-pro" "hi\nthere".toList] respOK
    ⟨some ⟨[⟨"ok".toList⟩]⟩⟩ [] ⟨[⟨"ok".toList⟩]⟩ ⟨"ok".toList⟩ []
    (by decide) rfl rfl (by rfl) (by decide) rfl rfl rfl rfl

theorem summaryLoop_nil (env : LLMEnv) (now : Int) (fam : ModelFamily)
    (prompt text : List Char) (orig : List Model) (maxTokens : Int)
    (tr : Option TokenTracker) :
    summaryLoop env now fam prompt text orig maxTokens [] tr
      = some (.error (.allModelsFailed orig), tr, []) := rfl

theorem summaryLoop_missing (env : LLMEnv) (now : Int) (fam : ModelFamily)
    (prompt text : List Char) (orig : List Model) (maxTokens : Int)
    (m : Model) (ms : List Model) (tr : Option TokenTracker)
    (hname : llmModelNames m = none) :
    summaryLoop env now fam prompt text orig maxTokens (m :: ms) tr
      = some (.error (.unsupportedModel m), tr, []) := by
  simp only [summaryLoop, hname]

theorem summaryLoop_success (env : LLMEnv) (now : Int) (fam : ModelFamily)
    (prompt text : List Char) (orig : List Model) (maxTokens : Int)
    (m : Model) (ms : List Model) (tr : Option TokenTracker) (nm : String)
    (s : List Char) (tr1 : Option TokenTracker) (ev : List Ev)
    (hname : llmModelNames m = some nm)
    (hatt : tryGenerateSummary env tr now fam prompt text m maxTokens
      = some (.ok s, tr1, ev))
    (hs : ¬ s = []) :
    summaryLoop env now fam prompt text orig maxTokens (m :: ms) tr
      = some (.ok (s, m), tr1, Ev.attempt m :: ev) := by
  simp only [summaryLoop, hname, hatt, if_neg hs]

theorem summaryLoop_error_step (env : LLMEnv) (now : Int) (fam : ModelFamily)
    (prompt text : List Char) (orig : List Model) (maxTokens : Int)
    (m : Model) (ms : List Model) (tr : Option TokenTracker) (nm : String)
    (e : SummaryError) (tr1 : Option TokenTracker) (ev : List Ev)
    (hname : llmModelNames m = some nm)
    (hatt : tryGenerateSummary env tr now fam prompt text m maxTokens
      = some (.error e, tr1, ev)) :
    summaryLoop env now fam prompt text orig maxTokens (m :: ms) tr
      = (summaryLoop env now fam prompt text orig maxTokens ms tr1).map
          (fun x => (x.1, x.2.1, (Ev.attempt m :: ev) ++ x.2.2)) := by
  simp only [summaryLoop, hname, hatt]
  cases summaryLoop env now fam prompt text orig maxTokens ms tr1 with
  | none => rfl
  | some q =>
    rcases q with ⟨res, trF, evF⟩
    rfl

theorem summaryByGemini_nokey (env : LLMEnv) (tracker : Option TokenTracker) (now : Int)
    (prompt content : List Char) (llmModel : Model) (maxTokens : Int)
    (h : env.geminiAPIKey = []) :
    summaryByGemini env tracker now prompt content llmModel maxTokens
      = some (.error .emptyAPIKey, tracker, []) := by
  simp [summaryByGemini, h]

theorem summaryLoop_empty_step (env : LLMEnv) (now : Int) (fam : ModelFamily)
    (prompt text : List Char) (orig : List Model) (maxTokens : Int)
    (m : Model) (ms : List Model) (tr : Option TokenTracker) (nm : String)
    (tr1 : Option TokenTracker) (ev : List Ev)
    (hname : llmModelNames m = some nm)
    (hatt : tryGenerateSummary env tr now fam prompt text m maxTokens
      = some (.ok [], tr1, ev)) :
    summaryLoop env now fam prompt text orig maxTokens (m :: ms) tr
      = (summaryLoop env now fam prompt text orig maxTokens ms tr1).map
          (fun x => (x.1, x.2.1, (Ev.attempt m :: ev) ++ x.2.2)) := by
  simp only [summaryLoop, hname, hatt, if_pos rfl]
  cases summaryLoop env now fam prompt text orig maxTokens ms tr1 with
  | none => rfl
  | some q =>
    rcases q with ⟨res, trF, evF⟩
    rfl

/-- C8 counterexample: the claim says a missing credential failure "is never
retried", and the spec's error taxonomy makes configuration errors fatal to
the operation. In the code, however, `summaryInternal` treats the
empty-credential error like any per-model failure: with the key flag empty and
two candidates, the first attempt fails with the configuration error and the
loop nevertheless starts a second attempt (two `attempt` events below), the
operation ending in the aggregate all-models-failed error instead of aborting
on the configuration error. -/
theorem C8_missing_credential_cex :
    summaryInternal envNoKey none 0 .MODEL_FAMILY_GEMINI "p".toList "b".toList
      [.MODEL_GEMINI_2_5_PRO, .MODEL_GEMINI_2_5_FLASH] 100
      = some (.error (.allModelsFailed [.MODEL_GEMINI_2_5_PRO, .MODEL_GEMINI_2_5_FLASH]),
          none, [.attempt .MODEL_GEMINI_2_5_PRO, .attempt .MODEL_GEMINI_2_5_FLASH])
    ∧ ([Ev.attempt .MODEL_GEMINI_2_5_PRO,
        Ev.attempt .MODEL_GEMINI_2_5_FLASH].filter Ev.isAttempt).length = 2 := by
  exact ⟨rfl, rfl⟩

/-- C8 (amended): an absent credential makes the per-model attempt fail
immediately with a configuration error — no client is created, no backend
call is made, the tracker is untouched — and within an attempt the failure is
never retried; however the orchestrator does not abort the operation: it
advances through every remaining candidate, each attempt failing identically,
and ends with the aggregate all-models-failed error, its event log being
exactly one attempt entry per candidate with no backend calls. -/
theorem C8_missing_credential_amended :
    (∀ (env : LLMEnv) (tracker : Option TokenTracker) (now : Int)
      (prompt content : List Char) (llmModel : Model) (maxTokens : Int),
      env.geminiAPIKey = [] →
      summaryByGemini env tracker now prompt content llmModel maxTokens
        = some (.error .emptyAPIKey, tracker, []))
    ∧ (∀ (env : LLMEnv) (now : Int) (prompt text : List Char) (orig : List Model)
      (maxTokens : Int) (ms : List Model) (tr : Option TokenTracker),
      env.geminiAPIKey = [] →
      (∀ m ∈ ms, (llmModelNames m).isSome) →
      summaryLoop env now .MODEL_FAMILY_GEMINI prompt text orig maxTokens ms tr
        = some (.error (.allModelsFailed orig), tr, ms.map Ev.attempt)) := by
  refine ⟨?_, ?_⟩
  · intro env tracker now prompt content llmModel maxTokens hkey
    exact summaryByGemini_nokey env tracker now prompt content llmModel maxTokens hkey
  · intro env now prompt text orig maxTokens ms
    induction ms with
    | nil =>
      intro tr _ _
      exact summaryLoop_nil env now .MODEL_FAMILY_GEMINI prompt text orig maxTokens tr
    | cons m ms ih =>
      intro tr hkey hnames
      obtain ⟨nm, hnm⟩ := Option.isSome_iff_exists.mp (hnames m (List.mem_cons_self m ms))
      have hatt : tryGenerateSummary env tr now .MODEL_FAMILY_GEMINI prompt text m maxTokens
          = some (.error .emptyAPIKey, tr, []) :=
        summaryByGemini_nokey env tr now prompt text m maxTokens hkey
      rw [summaryLoop_error_step env now .MODEL_FAMILY_GEMINI prompt text orig maxTokens
        m ms tr nm .emptyAPIKey tr [] hnm hatt]
      rw [ih tr hkey (fun x hx => hnames x (List.mem_cons_of_mem m hx))]
      simp

/-- Witness for C8 (amended) at a concrete input: with an empty key flag the
per-model attempt fails with the configuration error at once, touching
nothing. -/
theorem C8_missing_credential_amended_witness :
    summaryByGemini envNoKey none 0 "p".toList "b".toList .MODEL_GEMINI_2_5_PRO 100
      = some (.error .emptyAPIKey, none, []) :=
  C8_missing_credential_amended.1 envNoKey none 0 "p".toList "b".toList
    .MODEL_GEMINI_2_5_PRO 100 rfl

/-- C1: the fallback loop of `summaryInternal` processes candidates strictly
in list order: an exhausted list yields the aggregate error naming the full
attempted set; a candidate absent from `llmModelNames` aborts the whole
operation at once with an unsupported-model error, no attempt made and no
further candidate tried; a non-empty successful attempt returns immediately
with that candidate's id; a failed (or empty) attempt advances to the next
candidate; if every candidate in a fully catalogued list can only fail or
come back empty, the run ends in the aggregate error naming the attempted
set; concretely, with candidates [2.5-pro, 2.5-flash] where the first model's
generation fails and the second's succeeds, the loop returns the second
model's output and id having invoked the backend for both, in order; and with
every generation failing, the run over the full priority list ends in the
aggregate error with `GenerateContent` invoked exactly once per candidate. -/
theorem C1_model_fallback_order :
    (∀ (env : LLMEnv) (now : Int) (fam : ModelFamily) (prompt text : List Char)
      (orig : List Model) (maxTokens : Int) (tr : Option TokenTracker),
      summaryLoop env now fam prompt text orig maxTokens [] tr
        = some (.error (.allModelsFailed orig), tr, []))
    ∧ (∀ (env : LLMEnv) (now : Int) (fam : ModelFamily) (prompt text : List Char)
      (orig : List Model) (maxTokens : Int) (m : Model) (ms : List Model)
      (tr : Option TokenTracker),
      llmModelNames m = none →
      summaryLoop env now fam prompt text orig maxTokens (m :: ms) tr
        = some (.error (.unsupportedModel m), tr, []))
    ∧ (∀ (env : LLMEnv) (now : Int) (fam : ModelFamily) (prompt text : List Char)
      (orig : List Model) (maxTokens : Int) (m : Model) (ms : List Model)
      (tr : Option TokenTracker) (nm : String) (s : List Char)
      (tr1 : Option TokenTracker) (ev : List Ev),
      llmModelNames m = some nm →
      tryGenerateSummary env tr now fam prompt text m maxTokens = some (.ok s, tr1, ev) →
      ¬ s = [] →
      summaryLoop env now fam prompt text orig maxTokens (m :: ms) tr
        = some (.ok (s, m), tr1, Ev.attempt m :: ev))
    ∧ (∀ (env : LLMEnv) (now : Int) (fam : ModelFamily) (prompt text : List Char)
      (orig : List Model) (maxTokens : Int) (m : Model) (ms : List Model)
      (tr : Option TokenTracker) (nm : String) (e : SummaryError)
      (tr1 : Option TokenTracker) (ev : List Ev),
      llmModelNames m = some nm →
      tryGenerateSummary env tr now fam prompt text m maxTokens = some (.error e, tr1, ev) →
      summaryLoop env now fam prompt text orig maxTokens (m :: ms) tr
        = (summaryLoop env now fam prompt text orig maxTokens ms tr1).map
            (fun x => (x.1, x.2.1, (Ev.attempt m :: ev) ++ x.2.2)))
    ∧ (∀ (env : LLMEnv) (now : Int) (fam : ModelFamily) (prompt text : List Char)
      (orig : List Model) (maxTokens : Int) (ms : List Model),
      ∀ tr : Option TokenTracker,
      (∀ m ∈ ms, (llmModelNames m).isSome) →
      (∀ m ∈ ms, ∀ tr' : Option TokenTracker,
        tryGenerateSummary env tr' now fam prompt text m maxTokens ≠ none) →
      (∀ m ∈ ms, ∀ (tr' tr1 : Option TokenTracker)
        (res : Except SummaryError (List Char)) (ev : List Ev),
        tryGenerateSummary env tr' now fam prompt text m maxTokens = some (res, tr1, ev) →
        ∀ s, res = .ok s → s = []) →
      ∃ trF evF, summaryLoop env now fam prompt text orig maxTokens ms tr
        = some (.error (.allModelsFailed orig), trF, evF))
    ∧ summaryInternal (envWith clientFallback) none 0 .MODEL_FAMILY_GEMINI
        "p".toList "b".toList [.MODEL_GEMINI_2_5_PRO, .MODEL_GEMINI_2_5_FLASH] 100
      = some (.ok ("fallback summary".toList, .MODEL_GEMINI_2_5_FLASH), none,
          [.attempt .MODEL_GEMINI_2_5_PRO,
           .countCall "gemini-2.5-pro" "p\nb".toList,
           .generateCall "gemini-2.5-pro" "p\nb".toList,
           .attempt .MODEL_GEMINI_2_5_FLASH,
           .countCall "gemini-2.5-flash" "p\nb".toList,
           .generateCall "gemini-2.5-flash" "p\nb".toList])
    ∧ summaryInternal (envWith clientGenFail) none 0 .MODEL_FAMILY_GEMINI
        "p".toList "b".toList llmModelPriority 100
      = some (.error (.allModelsFailed llmModelPriority), none,
          [.attempt .MODEL_GEMINI_2_5_PRO,
           .countCall "gemini-2.5-pro" "p\nb".toList,
           .generateCall "gemini-2.5-pro" "p\nb".toList,
           .attempt .MODEL_GEMINI_2_5_FLASH,
           .countCall "gemini-2.5-flash" "p\nb".toList,
           .generateCall "gemini-2.5-flash" "p\nb".toList,
           .attempt .MODEL_GEMINI_2_5_FLASH_LITE,
           .countCall "gemini-2.5-flash-lite" "p\nb".toList,
           .generateCall "gemini-2.5-flash-lite" "p\nb".toList,
           .attempt .MODEL_GEMINI_2_0_FLASH,
           .countCall "gemini-2.0-flash" "p\nb".toList,
           .generateCall "gemini-2.0-flash" "p\nb".toList,
           .attempt .MODEL_GEMINI_2_0_FLASH_LITE,
           .countCall "gemini-2.0-flash-lite" "p\nb".toList,
           .generateCall "gemini-2.0-flash-lite" "p\nb".toList])
      ∧ ([Ev.attempt .MODEL_GEMINI_2_5_PRO,
          Ev.countCall "gemini-2.5-pro" "p\nb".toList,
          Ev.generateCall "gemini-2.5-pro" "p\nb".toList,
          Ev.attempt .MODEL_GEMINI_2_5_FLASH,
          Ev.countCall "gemini-2.5-flash" "p\nb".toList,
          Ev.generateCall "gemini-2.5-flash" "p\nb".toList,
          Ev.attempt .MODEL_GEMINI_2_5_FLASH_LITE,
          Ev.countCall "gemini-2.5-flash-lite" "p\nb".toList,
          Ev.generateCall "gemini-2.5-flash-lite" "p\nb".toList,
          Ev.attempt .MODEL_GEMINI_2_0_FLASH,
          Ev.countCall "gemini-2.0-flash" "p\nb".toList,
          Ev.generateCall "gemini-2.0-flash" "p\nb".toList,
          Ev.attempt .MODEL_GEMINI_2_0_FLASH_LITE,
          Ev.countCall "gemini-2.0-flash-lite" "p\nb".toList,
          Ev.generateCall "gemini-2.0-flash-lite" "p\nb".toList].filter
            Ev.isGenerate).length = llmModelPriority.length := by
  refine ⟨summaryLoop_nil, summaryLoop_missing, summaryLoop_success,
    summaryLoop_error_step, ?_, by rfl, by rfl, by rfl⟩
  intro env now fam prompt text orig maxTokens ms
  induction ms with
  | nil =>
    intro tr _ _ _
    exact ⟨tr, [], summaryLoop_nil env now fam prompt text orig maxTokens tr⟩
  | cons m ms ih =>
    intro tr hnames hsome hempty
    obtain ⟨nm, hnm⟩ := Option.isSome_iff_exists.mp (hnames m (List.mem_cons_self m ms))
    cases hatt : tryGenerateSummary env tr now fam prompt text m maxTokens with
    | none => exact absurd hatt (hsome m (List.mem_cons_self m ms) tr)
    | some out =>
      rcases out with ⟨res, tr1, ev⟩
      rcases ih tr1 (fun x hx => hnames x (List.mem_cons_of_mem m hx))
        (fun x hx => hsome x (List.mem_cons_of_mem m hx))
        (fun x hx => hempty x (List.mem_cons_of_mem m hx)) with ⟨trF, evF, hrec⟩
      cases res with
      | error e =>
        refine ⟨trF, (Ev.attempt m :: ev) ++ evF, ?_⟩
        rw [summaryLoop_error_step env now fam prompt text orig maxTokens m ms tr nm
          e tr1 ev hnm hatt, hrec]
        rfl
      | ok s =>
        have hs : s = [] :=
          hempty m (List.mem_cons_self m ms) tr tr1 (.ok s) ev hatt s rfl
        subst hs
        refine ⟨trF, (Ev.attempt m :: ev) ++ evF, ?_⟩
        rw [summaryLoop_empty_step env now fam prompt text orig maxTokens m ms tr nm
          tr1 ev hnm hatt, hrec]
        rfl

/-- Witness for C1 at a concrete input: a candidate missing from the catalog
(`MODEL_UNSPECIFIED`) aborts the loop immediately with the unsupported-model
error, with no attempt logged. -/
theorem C1_model_fallback_order_witness :
    summaryLoop (envWith clientHappy) 0 .MODEL_FAMILY_GEMINI "p".toList "b".toList
      [.MODEL_UNSPECIFIED] 100 [.MODEL_UNSPECIFIED] none
      = some (.error (.unsupportedModel .MODEL_UNSPECIFIED), none, []) :=
  C1_model_fallback_order.2.1 (envWith clientHappy) 0 .MODEL_FAMILY_GEMINI
    "p".toList "b".toList [.MODEL_UNSPECIFIED] 100 .MODEL_UNSPECIFIED [] none rfl

theorem WaitForHealthy_ok_iff (services : List ServiceSpec) (D timeout : Nat) :
    WaitForHealthy services D timeout = .ok ()
      ↔ ∀ sv ∈ services, pollServing sv.probe D = true := by
  simp only [WaitForHealthy]
  rcases hf : services.filter (fun sv => ! pollServing sv.probe D) with _ | ⟨a, rest⟩
  · simp only [hf, List.map_nil, List.isEmpty_nil, if_true]
    constructor
    · intro _ sv hsv
      have := (List.filter_eq_nil_iff.mp hf) sv hsv
      simpa using this
    · intro _
      trivial
  · have ha : a ∈ services.filter (fun sv => ! pollServing sv.probe D) := by
      rw [hf]
      exact List.mem_cons_self a rest
    rcases List.mem_filter.mp ha with ⟨hmem, hp⟩
    simp only [Bool.not_eq_true'] at hp
    simp only [hf, List.map_cons, List.isEmpty_cons, if_false, Bool.false_eq_true]
    constructor
    · intro hcontra
      exact absurd hcontra (by simp)
    · intro hall
      exact absurd (hall a hmem) (by simp [hp])

/-- Masking transient probe errors to "not yet serving" does not change the
poller's outcome: an errored probe and a non-`SERVING` probe both just wait
for the next tick. -/
theorem pollAux_mask (probe : Nat → ProbeResult) :
    ∀ (r k : Nat), pollAux probe r k
      = pollAux (fun j => match probe j with | .err => .notServing | x => x) r k := by
  intro r
  induction r with
  | zero => intro k; rfl
  | succ r ih =>
    intro k
    simp only [pollAux]
    cases hp : probe k with
    | err => simp [hp, ih (k + 1)]
    | notServing => simp [hp, ih (k + 1)]
    | serving => simp [hp]

/-- C9: the readiness gate returns success exactly when every service's
poller observed a `SERVING` probe before the context deadline; otherwise it
returns an aggregate error whose entries are exactly the services whose
pollers timed out (it waits for all pollers, so no failure is dropped);
transient probe errors are handled identically to not-yet-serving statuses;
and concretely, with three services of which two serve from the first probe
and one only ever yields probe errors, the gate returns an aggregate error
naming exactly that one service. -/
theorem C9_readiness_gate :
    (∀ (services : List ServiceSpec) (ctxDeadline timeout : Nat),
      (WaitForHealthy services ctxDeadline timeout = .ok ()
        ↔ ∀ sv ∈ services, pollServing sv.probe ctxDeadline = true)
      ∧ (∀ errs, WaitForHealthy services ctxDeadline timeout = .error errs →
          (∀ n, n ∈ errs ↔ ∃ sv ∈ services, sv.name = n
              ∧ pollServing sv.probe ctxDeadline = false)
          ∧ errs ≠ []))
    ∧ (∀ (probe : Nat → ProbeResult) (deadline : Nat),
        pollServing probe deadline
          = pollServing (fun j => match probe j with | .err => .notServing | x => x)
              deadline)
    ∧ WaitForHealthy
        [⟨"database", fun _ => .serving⟩, ⟨"todo", fun _ => .serving⟩,
         ⟨"llm", fun _ => .err⟩] 1 500
      = .error ["llm"] := by
  refine ⟨?_, ?_, by rfl⟩
  · intro services D timeout
    refine ⟨WaitForHealthy_ok_iff services D timeout, ?_⟩
    intro errs herr
    have hne : ¬ ((services.filter (fun sv => ! pollServing sv.probe D)).map
        ServiceSpec.name).isEmpty = true := by
      intro hemp
      simp only [WaitForHealthy, hemp, if_true] at herr
      exact absurd herr (by simp)
    have herrs : errs = (services.filter (fun sv => ! pollServing sv.probe D)).map
        ServiceSpec.name := by
      simp only [WaitForHealthy] at herr
      rw [if_neg hne] at herr
      simp only [Except.error.injEq] at herr
      exact herr.symm
    constructor
    · intro n
      rw [herrs]
      constructor
      · intro hn
        rcases List.mem_map.mp hn with ⟨sv, hsvf, hname⟩
        rcases List.mem_filter.mp hsvf with ⟨hmem, hp⟩
        simp only [Bool.not_eq_true'] at hp
        exact ⟨sv, hmem, hname, hp⟩
      · intro ⟨sv, hmem, hname, hp⟩
        exact List.mem_map.mpr ⟨sv, List.mem_filter.mpr ⟨hmem, by simp [hp]⟩, hname⟩
    · intro hnil
      rw [hnil] at herrs
      have : ((services.filter (fun sv => ! pollServing sv.probe D)).map
          ServiceSpec.name).isEmpty = true := by
        rw [← herrs]
        rfl
      exact hne this
  · intro probe deadline
    exact pollAux_mask probe deadline 1

/-- Witness for C9 at a concrete input: a pool whose single service serves at
the first probe passes the gate. -/
theorem C9_readiness_gate_witness :
    WaitForHealthy [⟨"database", fun _ => .serving⟩] 1 500 = .ok () :=
  ((C9_readiness_gate.1 [⟨"database", fun _ => .serving⟩] 1 500).1).mpr
    (by
      intro sv hsv
      rcases List.mem_singleton.mp hsv with rfl
      rfl)

/-- C10: the `timeout` argument of `WaitForHealthy` has no influence on its
behavior: two calls differing only in the timeout value return the same
result, polling being bounded solely by the context deadline. The embedded
`WaitForHealthy` takes the parameter exactly as the Go method does and, like
it, never reads it. -/
theorem C10_timeout_unused :
    ∀ (services : List ServiceSpec) (ctxDeadline t1 t2 : Nat),
      WaitForHealthy services ctxDeadline t1 = WaitForHealthy services ctxDeadline t2 := by
  intro services D t1 t2
  rfl

end Todofy
